import Mathlib

/-!
# Verification of the agent orchestration core of `ste-chat`

Shallow embedding of `src/services/agent_service.py`: the tool-call parser
(`ToolExecutor.parse_tool_calls`), the dispatcher (`ToolExecutor.execute_tool`,
`ToolExecutor.execute_tool_calls`), the registry description
(`ToolExecutor.get_tools_description`, `ToolExecutor._register_tools`) and the
orchestrator (`AgentService.process_message`).

Text is modelled as `List Char`.  The character repertoire modelled exactly is
ASCII together with the superscript and subscript digit characters (those are
the characters for which Python `str.isdigit` answers true while `int()`
raises `ValueError`; they witness a divergence between the code and its spec).
Other non-ASCII characters are modelled as plain non-word, non-space,
non-digit text; in particular the Python regex classes `\w` and `\s` are
modelled at their ASCII meaning.

The two regular expressions of the source,
`TOOL_CALL:\s*(\w+)\((.*?)\)` (with DOTALL) and
`(\w+)=["\']?(.*?)["\']?(?:,|$)`, are embedded as deterministic scanners.
Backtracking is resolved away where it is vacuous (greedy `\s*`/`\w+` followed
by a character of a disjoint class never backtracks); where it is real (the
two optional quotes around the lazily matched value) the scanner implements
the regex engine's priority order: the leading optional quote prefers to
consume, the lazy group tries shorter values first, the trailing optional
quote prefers to consume, and `(?:,|$)` tries the comma before end-of-input
(`$` also matches just before a final newline, as in Python without
MULTILINE).  `re.findall` is embedded as the one-character-advance scan that
emits non-overlapping matches left to right.
-/

/-- Text as the Python code manipulates it. -/
abbrev Str := List Char

/-- The character class `\w` of the patterns (ASCII repertoire):
letters, digits and underscore. -/
def isWordChar (c : Char) : Bool := c.isAlphanum || c == '_'

/-- The character class `\s` of the patterns: Python whitespace. -/
def isSpaceChar (c : Char) : Bool :=
  c == ' ' || c == '\t' || c == '\n' || c == '\r' ||
    c == Char.ofNat 11 || c == Char.ofNat 12

/-- A quote character, `["\']` in the parameter pattern. -/
def isQuoteChar (c : Char) : Bool := c == '"' || c == '\''

/-- Characters for which Python `str.isdigit` is true although `int()`
rejects them (modelled repertoire: the superscript and subscript digits).
Decimal digits outside ASCII are not part of the modelled repertoire. -/
def isNonDecimalDigit (c : Char) : Bool :=
  c == '¹' || c == '²' || c == '³' || c == '⁰' || c == '⁴' || c == '⁵' ||
    c == '⁶' || c == '⁷' || c == '⁸' || c == '⁹' || c == '₀' || c == '₁' ||
    c == '₂' || c == '₃' || c == '₄' || c == '₅' || c == '₆' || c == '₇' ||
    c == '₈' || c == '₉'

/-- Python `str.isdigit` on one character, over the modelled repertoire. -/
def pyIsDigit (c : Char) : Bool := c.isDigit || isNonDecimalDigit c

/-- Strip, from both ends, every character satisfying `p`
(Python `str.strip` family). -/
def pyStrip (p : Char → Bool) (l : Str) : Str :=
  ((l.dropWhile p).reverse.dropWhile p).reverse

/-- `str.lower`, at its ASCII meaning (the only comparison made with it in
the source is against the ASCII literal `"none"`). -/
def pyLower (l : Str) : Str := l.map Char.toLower

/-- Decimal value of a string of ASCII digits (`int()` on such a string). -/
def decVal (l : Str) : Nat := l.foldl (fun a c => a * 10 + (c.toNat - 48)) 0

/-- A Python exception escaping the parser or the dispatcher: `int()`
raising `ValueError`, carrying the offending literal; or the `TypeError`
raised when binding the call `self.execute_tool(tool_name, **params)`,
carrying the argument name that received multiple values. -/
inductive PyErr where
  | valueError : Str → PyErr
  | typeError : Str → PyErr
deriving DecidableEq, Repr

/-- A coerced argument value: `None`, an `int`, or a `str`
(`agent_service.py` lines 115-123). -/
inductive PyVal where
  | null : PyVal
  | int : Nat → PyVal
  | str : Str → PyVal
deriving DecidableEq, Repr

/-- `param_value.strip().strip(DQUOTE).strip(QUOTE)` of line 117: strip
whitespace, then double quotes, then single quotes, from both ends. -/
def strippedValue (raw : Str) : Str :=
  pyStrip (fun c => c == '\'') (pyStrip (fun c => c == '"') (pyStrip isSpaceChar raw))

/-- Value coercion of `parse_tool_calls` (lines 117-123): after stripping,
`None` when the result lowercases to `none`, an `int` when `isdigit` holds —
which raises `ValueError` when the digit characters are not all decimal —
and the string itself otherwise. -/
def coerceParamValue (raw : Str) : Except PyErr PyVal :=
  if pyLower (strippedValue raw) = "none".toList then .ok .null
  else if strippedValue raw ≠ [] ∧ (strippedValue raw).all pyIsDigit then
    if (strippedValue raw).all Char.isDigit then
      .ok (.int (decVal (strippedValue raw)))
    else .error (.valueError (strippedValue raw))
  else .ok (.str (strippedValue raw))

/-- A Python dict from parameter names to values, as an insertion-ordered
association list. -/
abbrev ParamDict := List (Str × PyVal)

/-- Python dict assignment `d[k] = v`: overwrite in place when the key is
present, append otherwise. -/
def dictInsert (k : Str) (v : PyVal) : ParamDict → ParamDict
  | [] => [(k, v)]
  | e :: rest => if e.1 = k then (k, v) :: rest else e :: dictInsert k v rest

/-- Python dict lookup `d.get(k)` on the association-list model. -/
def dictGet (k : Str) : ParamDict → Option PyVal
  | [] => none
  | e :: rest => if e.1 = k then some e.2 else dictGet k rest

/-- Maximal prefix of word characters and the remainder (greedy `\w+`,
which never backtracks here because it is always followed by a
non-word-character literal in both patterns). -/
def takeWord : Str → Str × Str
  | [] => ([], [])
  | c :: rest =>
      if isWordChar c then
        let (w, r) := takeWord rest
        (c :: w, r)
      else ([], c :: rest)

/-- `(?:,|$)` of the parameter pattern at the current position: a comma is
consumed; end of input, or a position just before a final newline, matches
with nothing consumed (Python `$` without MULTILINE). -/
def commaOrEnd : Str → Option Str
  | [] => some []
  | [c] => if c = ',' then some [] else if c = '\n' then some [c] else none
  | c :: rest => if c = ',' then some rest else none

/-- `["\']?(?:,|$)` at the current position, trying the quote-consuming
branch first (the optional quote is greedy). -/
def termCheck (l : Str) : Option Str :=
  match l with
  | q :: rest =>
      if isQuoteChar q then
        match commaOrEnd rest with
        | some r => some r
        | none => commaOrEnd (q :: rest)
      else commaOrEnd (q :: rest)
  | [] => commaOrEnd ([] : Str)

/-- The lazily matched value `(.*?)["\']?(?:,|$)`: the shortest prefix not
containing a newline (`.` without DOTALL) after which `termCheck` succeeds.
Returns the captured value and the remainder after the terminator. -/
def valueScan : Str → Option (Str × Str)
  | [] =>
      match termCheck ([] : Str) with
      | some r => some (([] : Str), r)
      | none => none
  | c :: rest =>
      match termCheck (c :: rest) with
      | some r => some (([] : Str), r)
      | none =>
          if c = '\n' then none
          else
            match valueScan rest with
            | some (v, r) => some (c :: v, r)
            | none => none

/-- The part `["\']?(.*?)["\']?(?:,|$)` of the parameter pattern: the leading
optional quote prefers to consume; if no continuation succeeds after it, the
engine retries with the quote left for the value. -/
def matchParamTail (r2 : Str) : Option (Str × Str) :=
  match r2 with
  | q :: r3 =>
      if isQuoteChar q then
        match valueScan r3 with
        | some vr => some vr
        | none => valueScan (q :: r3)
      else valueScan (q :: r3)
  | [] => valueScan ([] : Str)

/-- Anchored match of the parameter pattern `(\w+)=["\']?(.*?)["\']?(?:,|$)`
at the start of `l`: the key, the raw captured value, and the remainder. -/
def matchParamAt (l : Str) : Option ((Str × Str) × Str) :=
  match takeWord l with
  | (key, r1) =>
      if key.isEmpty then none
      else
        match r1 with
        | c :: r2 =>
            if c = '=' then
              match matchParamTail r2 with
              | some (v, r) => some ((key, v), r)
              | none => none
            else none
        | [] => none

/-- `re.findall(param_pattern, params_str)` with explicit fuel (any fuel at
least the input length gives the scan's value; see `scanParamsFuel_congr`):
scan left to right, advancing one character past a failed anchor attempt and
past the whole match on success (matches are non-overlapping). -/
def scanParamsFuel : Nat → Str → List (Str × Str)
  | 0, _ => []
  | _ + 1, [] => []
  | fuel + 1, c :: rest =>
      match matchParamAt (c :: rest) with
      | some (m, r) => m :: scanParamsFuel fuel r
      | none => scanParamsFuel fuel rest

/-- `re.findall(param_pattern, params_str)`. -/
def scanParams (l : Str) : List (Str × Str) := scanParamsFuel l.length l

/-- The literal marker of the tool-call pattern. -/
def toolMarker : Str := "TOOL_CALL:".toList

/-- Consume the literal `p` at the head of the input. -/
def dropLit : Str → Str → Option Str
  | [], l => some l
  | _ :: _, [] => none
  | p :: ps, c :: cs => if c = p then dropLit ps cs else none

/-- The greedy `\s*` after the marker (never backtracks: it is followed by
`\w+`, and no character is both space and word). -/
def dropSpaces (l : Str) : Str := l.dropWhile isSpaceChar

/-- The lazy body `(.*?)\)` under DOTALL: everything up to the first closing
parenthesis, and the remainder after it. -/
def splitAtCloseParen : Str → Option (Str × Str)
  | [] => none
  | c :: rest =>
      if c = ')' then some (([] : Str), rest)
      else
        match splitAtCloseParen rest with
        | some (b, r) => some (c :: b, r)
        | none => none

/-- Anchored match of the name-and-arguments part `\s*(\w+)\((.*?)\)` that
follows the marker: skip whitespace, take a nonempty tool name, require the
opening parenthesis, split at the first closing parenthesis. -/
def matchAfterMarker (r1 : Str) : Option ((Str × Str) × Str) :=
  if (takeWord (dropSpaces r1)).1.isEmpty then none
  else
    match (takeWord (dropSpaces r1)).2 with
    | '(' :: r4 =>
        match splitAtCloseParen r4 with
        | some (body, r) => some (((takeWord (dropSpaces r1)).1, body), r)
        | none => none
    | _ => none

/-- Anchored match of the tool-call pattern `TOOL_CALL:\s*(\w+)\((.*?)\)`
(DOTALL) at the start of `l`: the tool name, the raw argument body, and the
remainder after the closing parenthesis. -/
def matchToolCallAt (l : Str) : Option ((Str × Str) × Str) :=
  match dropLit toolMarker l with
  | none => none
  | some r1 => matchAfterMarker r1

/-- `re.findall(tool_pattern, text, re.DOTALL)` with explicit fuel (any fuel
at least the input length gives the scan's value; see
`scanToolCallsFuel_congr`): the non-overlapping left-to-right scan for
tool-call matches. -/
def scanToolCallsFuel : Nat → Str → List (Str × Str)
  | 0, _ => []
  | _ + 1, [] => []
  | fuel + 1, c :: rest =>
      match matchToolCallAt (c :: rest) with
      | some (m, r) => m :: scanToolCallsFuel fuel r
      | none => scanToolCallsFuel fuel rest

/-- `re.findall(tool_pattern, text, re.DOTALL)`. -/
def scanToolCalls (l : Str) : List (Str × Str) := scanToolCallsFuel l.length l

/-- The parameter-parsing loop of `parse_tool_calls` (lines 115-123): coerce
each raw captured value in scan order and assign it into the dict, stopping
at the first raised `ValueError`. -/
def buildDict : List (Str × Str) → ParamDict → Except PyErr ParamDict
  | [], d => .ok d
  | (k, raw) :: rest, d =>
      match coerceParamValue raw with
      | .error e => .error e
      | .ok v => buildDict rest (dictInsert k v d)

/-- Parameter parsing for one matched call (lines 110-123): an empty or
whitespace-only body yields the empty dict, otherwise the body is scanned
with the parameter pattern and the matches are coerced and assigned. -/
def parseParamsStr (paramsStr : Str) : Except PyErr ParamDict :=
  if (pyStrip isSpaceChar paramsStr).isEmpty then .ok []
  else buildDict (scanParams paramsStr) []

/-- One parsed invocation: `{"tool_name": ..., "parameters": ...}`. -/
structure ToolCall where
  tool_name : Str
  parameters : ParamDict
deriving DecidableEq, Repr

/-- The loop of `parse_tool_calls` over the scanned matches (lines 107-128),
propagating the first `ValueError` raised by a coercion. -/
def buildToolCalls : List (Str × Str) → Except PyErr (List ToolCall)
  | [] => .ok []
  | (name, ps) :: rest =>
      match parseParamsStr ps with
      | .error e => .error e
      | .ok d =>
          match buildToolCalls rest with
          | .error e => .error e
          | .ok l => .ok ({ tool_name := name, parameters := d } :: l)

/-- `ToolExecutor.parse_tool_calls` (lines 94-130).  The result is in an
exception monad because the coercion can raise `ValueError` (via `int()` on
a non-decimal digit string), and nothing in the function catches it. -/
def parse_tool_calls (text : Str) : Except PyErr (List ToolCall) :=
  buildToolCalls (scanToolCalls text)

/-- A value returned by a tool callable: plain text, or a tuple whose first
component is text (auxiliary non-text components are dropped by the
dispatcher and therefore not modelled). -/
inductive PyResult where
  | text : Str → PyResult
  | tuple : Str → PyResult

/-- A tool callable: named arguments in, text or tuple out; `.error msg`
models the callable raising an ordinary exception whose `str()` is `msg`. -/
abbrev ToolFn := ParamDict → Except Str PyResult

/-- A registry entry (`_register_tools`, lines 27-81): the callable, the
human-readable description, and the parameter-name-to-hint mapping. -/
structure ToolSpec where
  fn : ToolFn
  description : Str
  parameters : List (Str × Str)

/-- The registry `self.tools`: a Python dict keyed by tool name, modelled as
an insertion-ordered association list. -/
abbrev Registry := List (Str × ToolSpec)

/-- Dict membership test `tool_name not in self.tools` / lookup. -/
def lookupTool (name : Str) : Registry → Option ToolSpec
  | [] => none
  | (n, s) :: rest => if n = name then some s else lookupTool name rest

/-- Python `sep.join(items)`. -/
def joinSep (sep : Str) : List Str → Str
  | [] => []
  | [x] => x
  | x :: y :: rest => x ++ sep ++ joinSep sep (y :: rest)

/-- `ToolExecutor.get_tools_description` (lines 83-92): each tool renders as
`- name: description`, followed by an indented `Parameters:` line when the
parameter mapping is non-empty; blocks are joined with blank lines in
registry insertion order. -/
def get_tools_description (tools : Registry) : Str :=
  joinSep "\n\n".toList
    (tools.map (fun nt =>
      "- ".toList ++ nt.1 ++ ": ".toList ++ nt.2.description ++
        (if nt.2.parameters.isEmpty then [] else
          "\n  Parameters: ".toList ++
            joinSep ", ".toList
              (nt.2.parameters.map (fun kv => kv.1 ++ ": ".toList ++ kv.2)))))

/-- `ToolExecutor.execute_tool` (lines 132-155): unknown names and raising
callables are converted to error text, never propagated; a tuple result is
narrowed to its first component. -/
def execute_tool (tools : Registry) (name : Str) (args : ParamDict) : Str :=
  match lookupTool name tools with
  | none =>
      "Error: Tool '".toList ++ name ++ "' not found. Available tools: ".toList ++
        joinSep ", ".toList (tools.map Prod.fst)
  | some spec =>
      match spec.fn args with
      | .ok (.text s) => s
      | .ok (.tuple s) => s
      | .error e => "Error executing ".toList ++ name ++ ": ".toList ++ e

/-- One entry of `execution_logs` (lines 175-179): tool name, arguments, and
the `datetime.now().isoformat()` timestamp, modelled through an external
clock that returns the time of the i-th clock reading of the turn. -/
structure LogEntry where
  tool : Str
  params : ParamDict
  timestamp : Nat
deriving DecidableEq, Repr

/-- The keyword-binding check Python performs at line 182's call
`self.execute_tool(tool_name, **params)`: a key of `params` that names an
already-bound argument — the receiver `self` or the positional `tool_name` —
makes the call raise `TypeError` before `execute_tool`'s body runs, naming
the first such key in dict insertion order (CPython behaviour). -/
def callBindingError : ParamDict → Option PyErr
  | [] => none
  | e :: rest =>
      if e.1 = "tool_name".toList ∨ e.1 = "self".toList then
        some (.typeError e.1)
      else callBindingError rest

/-- The loop of `execute_tool_calls` (lines 170-183), reading the clock at
index `i` for the first invocation: the per-tool texts under `**Tool: name**`
headings — or the `TypeError` raised at line 182 when an invocation's
arguments rebind `tool_name` or `self` — paired with the log entries
created, one per invocation reached.  Each entry is appended before its tool
runs, so the raising invocation's entry is created too (and then lost with
the local list when the exception propagates). -/
def executeToolCallsGo (tools : Registry) (clock : Nat → Nat) (i : Nat) :
    List ToolCall → Except PyErr (List Str) × List LogEntry
  | [] => (.ok [], [])
  | tc :: rest =>
      let entry : LogEntry :=
        { tool := tc.tool_name, params := tc.parameters, timestamp := clock i }
      match callBindingError tc.parameters with
      | some e => (.error e, [entry])
      | none =>
          let result := execute_tool tools tc.tool_name tc.parameters
          let tail := executeToolCallsGo tools clock (i + 1) rest
          (match tail.1 with
           | .error e => .error e
           | .ok rs =>
               .ok (("**Tool: ".toList ++ tc.tool_name ++ "**\n\n".toList ++
                 result) :: rs),
            entry :: tail.2)

/-- `ToolExecutor.execute_tool_calls` (lines 157-186): execute in parser
order and join the per-tool texts with a blank-line-padded `---` rule —
or raise the uncaught `TypeError` of the binding at line 182. -/
def execute_tool_calls (tools : Registry) (clock : Nat → Nat)
    (toolCalls : List ToolCall) : Except PyErr (Str × List LogEntry) :=
  match (executeToolCallsGo tools clock 0 toolCalls).1 with
  | .error e => .error e
  | .ok rs =>
      .ok (joinSep "\n\n---\n\n".toList rs,
        (executeToolCallsGo tools clock 0 toolCalls).2)

/-- The log entries created by the `execute_tool_calls` loop before it
returns or raises (its side-effect trace). -/
def executeToolCallsTrace (tools : Registry) (clock : Nat → Nat)
    (toolCalls : List ToolCall) : List LogEntry :=
  (executeToolCallsGo tools clock 0 toolCalls).2

/-- A message dict `{"role": ..., "content": ...}`. -/
structure Message where
  role : Str
  content : Str
deriving DecidableEq, Repr

/-- An exception escaping `process_message`: an LLM-call failure (the
provider raising), or a Python exception from inside the turn — the
parser's `ValueError` or the dispatcher binding's `TypeError`. -/
inductive TurnErr where
  | llm : Str → TurnErr
  | py : PyErr → TurnErr
deriving DecidableEq, Repr

/-- Equality on `Except` values is decidable when it is on both sides. -/
instance {e a : Type} [DecidableEq e] [DecidableEq a] : DecidableEq (Except e a) :=
  fun x y =>
    match x, y with
    | .error u, .error v =>
        if h : u = v then .isTrue (by rw [h]) else .isFalse (by simp [h])
    | .ok u, .ok v =>
        if h : u = v then .isTrue (by rw [h]) else .isFalse (by simp [h])
    | .error _, .ok _ => .isFalse (by simp)
    | .ok _, .error _ => .isFalse (by simp)

/-- The observable outcome of one `process_message` call: the returned
triple (or the propagated exception), the outbound message sequences sent to
the LLM in order, and the execution-log entries created during the turn. -/
structure TurnOutcome where
  result : Except TurnErr (Str × Option Str × List LogEntry)
  llmCalls : List (List Message)
  turnLog : List LogEntry
deriving DecidableEq, Repr

/-- The first outbound sequence (lines 219-221): system prompt, then the
caller-supplied history, then the new user message. -/
def mkMessages1 (systemPrompt : Str) (history : List Message) (userMessage : Str) :
    List Message :=
  { role := "system".toList, content := systemPrompt } ::
    history ++ [{ role := "user".toList, content := userMessage }]

/-- The fixed instruction template wrapped around the combined tool text in
the second user message (lines 240-244). -/
def toolResultsTemplate (toolResults : Str) : Str :=
  "Here are the tool results:\n\n".toList ++ toolResults ++
    "\n\nBased on these tool results, answer the user's original question directly and concisely. Focus ONLY on what the user asked for. Extract the specific information they requested (e.g., if they asked for 'average delay', provide that number clearly). Do not repeat all the data - just answer their question.".toList

/-- The second outbound sequence (lines 237-245): the first sequence plus an
assistant message holding the initial response plus the templated user
message. -/
def mkMessages2 (messages1 : List Message) (initialResponse toolResults : Str) :
    List Message :=
  messages1 ++
    [{ role := "assistant".toList, content := initialResponse },
     { role := "user".toList, content := toolResultsTemplate toolResults }]

/-- `AgentService.process_message` (lines 207-250), with the LLM collaborator
as a black-box function that may fail and the analyzer callables inside the
registry.  The second LLM response is returned verbatim; it is never fed
back to the parser. -/
def process_message (llm : List Message → Except Str Str) (tools : Registry)
    (clock : Nat → Nat) (systemPrompt : Str) (userMessage : Str)
    (history : List Message) : TurnOutcome :=
  let messages1 := mkMessages1 systemPrompt history userMessage
  match llm messages1 with
  | .error e => { result := .error (.llm e), llmCalls := [messages1], turnLog := [] }
  | .ok initialResponse =>
      match parse_tool_calls initialResponse with
      | .error pe =>
          { result := .error (.py pe), llmCalls := [messages1], turnLog := [] }
      | .ok [] =>
          { result := .ok (initialResponse, none, []),
            llmCalls := [messages1], turnLog := [] }
      | .ok (tc :: tcs) =>
          match execute_tool_calls tools clock (tc :: tcs) with
          | .error e =>
              { result := .error (.py e), llmCalls := [messages1],
                turnLog := executeToolCallsTrace tools clock (tc :: tcs) }
          | .ok (toolResults, executionLogs) =>
              let messages2 := mkMessages2 messages1 initialResponse toolResults
              match llm messages2 with
              | .error e =>
                  { result := .error (.llm e),
                    llmCalls := [messages1, messages2],
                    turnLog := executionLogs }
              | .ok finalResponse =>
                  { result := .ok (finalResponse, some toolResults,
                      executionLogs),
                    llmCalls := [messages1, messages2],
                    turnLog := executionLogs }

/-- The data-analysis collaborator: one black-box callable per registered
tool (`DataAnalyzer` methods, bound in `_register_tools`). -/
structure DataAnalyzer where
  get_dataset_summary : ToolFn
  get_statistical_summary : ToolFn
  analyze_delays : ToolFn
  analyze_route_performance : ToolFn
  analyze_warehouse_performance : ToolFn
  analyze_by_time_period : ToolFn
  get_recommendations : ToolFn
  search_shipments : ToolFn

/-- `ToolExecutor._register_tools` (lines 27-81): the concrete registry, in
source insertion order, with the verbatim descriptions and parameter
hints. -/
def register_tools (da : DataAnalyzer) : Registry :=
  [("get_dataset_summary".toList,
    { fn := da.get_dataset_summary,
      description := "Get an overview summary of the shipments dataset including total shipments, date range, routes, warehouses, and basic statistics.".toList,
      parameters := [] }),
   ("get_statistical_summary".toList,
    { fn := da.get_statistical_summary,
      description := "Get detailed statistical analysis including mean, median, min, max, and standard deviation for delivery times and delays. Use this for statistical questions about median, mean, standard deviation, etc.".toList,
      parameters := [] }),
   ("analyze_delays".toList,
    { fn := da.analyze_delays,
      description := "Analyze delays in shipments above. Shows delay reasons, affected routes, and warehouses.".toList,
      parameters := [] }),
   ("analyze_route_performance".toList,
    { fn := da.analyze_route_performance,
      description := "Analyze performance of a specific route or compare all routes. Shows delivery times, delays, and warehouse usage.".toList,
      parameters :=
        [("route".toList,
          "Specific route to analyze (e.g., 'Route A') or None for all routes".toList)] }),
   ("analyze_warehouse_performance".toList,
    { fn := da.analyze_warehouse_performance,
      description := "Analyze performance of a specific warehouse or compare all warehouses. Shows delivery times, delays, and route usage.".toList,
      parameters :=
        [("warehouse".toList,
          "Specific warehouse to analyze (e.g., 'WH1') or None for all warehouses".toList)] }),
   ("analyze_by_time_period".toList,
    { fn := da.analyze_by_time_period,
      description := "Analyze shipments for a specific time period. Can filter by month (e.g., 'October', 'Oct'), year (e.g., 2024), or date range (start_date and end_date in YYYY-MM-DD format). Shows statistics, delays, and performance for that period.".toList,
      parameters :=
        [("month".toList,
          "Month name (full or 3-letter abbreviation, e.g., 'October' or 'Oct')".toList),
         ("year".toList, "Year as integer (e.g., 2024)".toList),
         ("start_date".toList, "Start date in YYYY-MM-DD format".toList),
         ("end_date".toList, "End date in YYYY-MM-DD format".toList)] }),
   ("get_recommendations".toList,
    { fn := da.get_recommendations,
      description := "Generate actionable recommendations based on comprehensive data analysis. Identifies issues and suggests improvements.".toList,
      parameters := [] }),
   ("search_shipments".toList,
    { fn := da.search_shipments,
      description := "Search for specific shipments based on natural language query (e.g., 'route A with delays', 'warehouse WH1 traffic issues').".toList,
      parameters := [("query".toList, "Natural language search query".toList)] })]

/-- Rendering of one registry entry as the spec words it (section 4.1):
`- name: description`, followed by an indented `Parameters: k: hint, ...`
line exactly when the parameter mapping is non-empty. -/
def specToolBlock (name : Str) (t : ToolSpec) : Str :=
  if t.parameters.isEmpty then
    "- ".toList ++ name ++ ": ".toList ++ t.description
  else
    "- ".toList ++ name ++ ": ".toList ++ t.description ++
      "\n  Parameters: ".toList ++
        joinSep ", ".toList
          (t.parameters.map (fun kv => kv.1 ++ ": ".toList ++ kv.2))

/-- The whole description as the spec words it: per-tool blocks joined with
blank-line separators, in registry insertion order. -/
def specToolsDescription (tools : Registry) : Str :=
  joinSep "\n\n".toList (tools.map (fun nt => specToolBlock nt.1 nt.2))

/-- The raw text of the last (rightmost) occurrence of key `k` among the
scanned `key=value` fragments. -/
def lastRawFor (k : Str) : List (Str × Str) → Option Str
  | [] => none
  | (k', raw) :: rest =>
      match lastRawFor k rest with
      | some r => some r
      | none => if k' = k then some raw else none

/-- A well-formed embedded tool call, decomposed: marker, whitespace run,
identifier, parenthesised body with no closing parenthesis inside. -/
def callText (ws name body : Str) : Str :=
  toolMarker ++ ws ++ name ++ '(' :: (body ++ [')'])

/-- One well-formed tool-call occurrence together with the prose that
precedes it; a text is assembled as
`prose₁ ++ call₁ ++ prose₂ ++ call₂ ++ ... ++ trailing prose`. -/
structure ProseCall where
  prose : Str
  ws : Str
  name : Str
  body : Str
  args : ParamDict
deriving DecidableEq, Repr

/-- Well-formedness of one occurrence: the whitespace run after the marker
is whitespace, the name is a nonempty identifier, the body contains no
closing parenthesis (so the lazy body group captures exactly it), the
preceding prose contains no `TOOL_CALL:` marker, and the body's arguments
coerce without `ValueError` to `args`. -/
def WellFormedChunk (c : ProseCall) : Prop :=
  (∀ x ∈ c.ws, isSpaceChar x = true) ∧ c.name ≠ [] ∧
    (∀ x ∈ c.name, isWordChar x = true) ∧ ')' ∉ c.body ∧
    ¬ toolMarker <:+: c.prose ∧ parseParamsStr c.body = .ok c.args

instance (c : ProseCall) : Decidable (WellFormedChunk c) := by
  unfold WellFormedChunk
  infer_instance

/-- The text assembled from occurrences interleaved with prose. -/
def assembleText : List ProseCall → Str → Str
  | [], tail => tail
  | c :: rest, tail =>
      c.prose ++ (callText c.ws c.name c.body ++ assembleText rest tail)

theorem takeWord_append (l : Str) : (takeWord l).1 ++ (takeWord l).2 = l := by
  induction l with
  | nil => rfl
  | cons c rest ih =>
      by_cases h : isWordChar c
      · simp [takeWord, h]
        exact ih
      · simp [takeWord, h]

theorem commaOrEnd_length {l r : Str} (h : commaOrEnd l = some r) :
    r.length ≤ l.length := by
  match l with
  | [] => simp [commaOrEnd] at h; simp [← h]
  | [c] =>
      simp only [commaOrEnd] at h
      by_cases hc : c = ','
      · simp [hc] at h; simp [← h]
      · by_cases hn : c = '\n'
        · simp [hc, hn] at h; simp [← h]
        · simp [hc, hn] at h
  | c :: d :: rest =>
      simp only [commaOrEnd] at h
      by_cases hc : c = ','
      · simp [hc] at h; simp [← h]
      · simp [hc] at h

theorem termCheck_length {l r : Str} (h : termCheck l = some r) :
    r.length ≤ l.length := by
  match l with
  | [] => exact commaOrEnd_length h
  | q :: rest =>
      simp only [termCheck] at h
      by_cases hq : isQuoteChar q
      · simp only [hq, if_true] at h
        cases hco : commaOrEnd rest with
        | some r' =>
            rw [hco] at h
            cases h
            have := commaOrEnd_length hco
            simp at this ⊢
            omega
        | none =>
            rw [hco] at h
            exact commaOrEnd_length h
      · simp only [hq, if_false] at h
        exact commaOrEnd_length h

theorem valueScan_length {l : Str} {v r : Str} (h : valueScan l = some (v, r)) :
    r.length ≤ l.length := by
  induction l generalizing v with
  | nil =>
      rw [valueScan] at h
      cases ht : termCheck ([] : Str) with
      | some r' =>
          rw [ht] at h
          cases h
          exact termCheck_length ht
      | none => rw [ht] at h; cases h
  | cons c rest ih =>
      rw [valueScan] at h
      cases ht : termCheck (c :: rest) with
      | some r' =>
          rw [ht] at h
          cases h
          exact termCheck_length ht
      | none =>
          rw [ht] at h
          simp only at h
          by_cases hn : c = '\n'
          · simp [hn] at h
          · simp only [hn, if_false] at h
            cases hv : valueScan rest with
            | some p =>
                obtain ⟨v', r'⟩ := p
                rw [hv] at h
                simp only [Option.some.injEq, Prod.mk.injEq] at h
                obtain ⟨hv1, hr⟩ := h
                have := ih (by rw [hv, hr])
                simp only [List.length_cons]
                omega
            | none => rw [hv] at h; cases h

theorem matchParamTail_length {l v r : Str} (h : matchParamTail l = some (v, r)) :
    r.length ≤ l.length := by
  match l with
  | [] =>
      rw [matchParamTail] at h
      have := valueScan_length h
      simpa using this
  | q :: r3 =>
      rw [matchParamTail] at h
      by_cases hq : isQuoteChar q
      · simp only [hq, if_true] at h
        cases hv : valueScan r3 with
        | some vr =>
            obtain ⟨v', r'⟩ := vr
            rw [hv] at h
            cases h
            have := valueScan_length hv
            simp only [List.length_cons]
            omega
        | none =>
            rw [hv] at h
            exact valueScan_length h
      · simp only [hq, if_false] at h
        exact valueScan_length h

theorem matchParamAt_length {l : Str} {m : Str × Str} {r : Str}
    (h : matchParamAt l = some (m, r)) : r.length < l.length := by
  rw [matchParamAt] at h
  cases htw : takeWord l with
  | mk key r1 =>
      rw [htw] at h
      have happ : key ++ r1 = l := by
        have := takeWord_append l
        rw [htw] at this
        exact this
      by_cases hk : key.isEmpty
      · simp [hk] at h
      · simp only [hk, if_false] at h
        match r1, happ with
        | [], happ => cases h
        | c :: r2, happ =>
            simp only at h
            by_cases hc : c = '='
            · simp only [hc, if_true] at h
              cases hmt : matchParamTail r2 with
              | some vr =>
                  obtain ⟨v', r'⟩ := vr
                  rw [hmt] at h
                  simp only [Option.some.injEq, Prod.mk.injEq] at h
                  obtain ⟨_, hr⟩ := h
                  have hlen := matchParamTail_length hmt
                  have hkey : 0 < key.length := by
                    cases key with
                    | nil => simp at hk
                    | cons a b => simp
                  rw [← happ]
                  simp only [List.length_append, List.length_cons]
                  omega
              | none => rw [hmt] at h; cases h
            · simp [hc] at h

theorem scanParamsFuel_nil (f : Nat) : scanParamsFuel f [] = [] := by
  cases f <;> rfl

/-- The fuel argument of `scanParamsFuel` is irrelevant once it covers the
input length. -/
theorem scanParamsFuel_congr :
    ∀ (f1 f2 : Nat) (l : Str), l.length ≤ f1 → l.length ≤ f2 →
      scanParamsFuel f1 l = scanParamsFuel f2 l := by
  intro f1
  induction f1 using Nat.strong_induction_on with
  | _ f1 ih =>
      intro f2 l h1 h2
      match f1, f2, l with
      | f1, f2, [] => rw [scanParamsFuel_nil, scanParamsFuel_nil]
      | 0, _, c :: rest => simp at h1
      | _ + 1, 0, c :: rest => simp at h2
      | g1 + 1, g2 + 1, c :: rest =>
          rw [scanParamsFuel, scanParamsFuel]
          simp only [List.length_cons] at h1 h2
          cases hm : matchParamAt (c :: rest) with
          | some mr =>
              obtain ⟨m, r⟩ := mr
              have hlt := matchParamAt_length hm
              simp only [List.length_cons] at hlt
              simp only
              rw [ih g1 (by omega) g2 r (by omega) (by omega)]
          | none =>
              simp only
              exact ih g1 (by omega) g2 rest (by omega) (by omega)

theorem dropLit_length {p l r : Str} (h : dropLit p l = some r) :
    r.length + p.length = l.length := by
  induction p generalizing l with
  | nil => cases l <;> (simp [dropLit] at h; simp [← h])
  | cons a ps ih =>
      match l with
      | [] => simp [dropLit] at h
      | c :: cs =>
          simp only [dropLit] at h
          by_cases hc : c = a
          · simp only [hc, if_true] at h
            have := ih h
            simp
            omega
          · simp [hc] at h

theorem dropSpaces_length (l : Str) : (dropSpaces l).length ≤ l.length := by
  induction l with
  | nil => simp [dropSpaces]
  | cons c rest ih =>
      simp only [dropSpaces, List.dropWhile] at ih ⊢
      split
      · exact Nat.le_trans ih (by simp)
      · simp

theorem splitAtCloseParen_length {l b r : Str} (h : splitAtCloseParen l = some (b, r)) :
    r.length < l.length := by
  induction l generalizing b with
  | nil => simp [splitAtCloseParen] at h
  | cons c rest ih =>
      simp only [splitAtCloseParen] at h
      by_cases hc : c = ')'
      · simp only [hc, if_true] at h
        simp only [Option.some.injEq, Prod.mk.injEq] at h
        obtain ⟨_, hr⟩ := h
        simp [← hr]
      · simp only [hc, if_false] at h
        cases hs : splitAtCloseParen rest with
        | some br =>
            obtain ⟨b', r'⟩ := br
            rw [hs] at h
            simp only [Option.some.injEq, Prod.mk.injEq] at h
            obtain ⟨_, hr⟩ := h
            have := ih (by rw [hs, hr])
            simp
            omega
        | none => rw [hs] at h; cases h

theorem takeWord_length_le (l : Str) : (takeWord l).2.length ≤ l.length := by
  conv_rhs => rw [← takeWord_append l]
  simp

theorem matchAfterMarker_length {r1 : Str} {m : Str × Str} {r : Str}
    (h : matchAfterMarker r1 = some (m, r)) : r.length < r1.length := by
  rw [matchAfterMarker] at h
  have h2 : (takeWord (dropSpaces r1)).2.length ≤ r1.length := by
    have ha := takeWord_length_le (dropSpaces r1)
    have := dropSpaces_length r1
    omega
  split at h
  · cases h
  · split at h
    · rename_i r4 heq
      split at h
      · rename_i body r' hs
        simp only [Option.some.injEq, Prod.mk.injEq] at h
        obtain ⟨_, hr⟩ := h
        have hlen := splitAtCloseParen_length hs
        rw [heq] at h2
        simp only [List.length_cons] at h2
        rw [← hr]
        omega
      · cases h
    · cases h

theorem matchToolCallAt_length {l : Str} {m : Str × Str} {r : Str}
    (h : matchToolCallAt l = some (m, r)) : r.length < l.length := by
  rw [matchToolCallAt] at h
  cases hd : dropLit toolMarker l with
  | none => rw [hd] at h; cases h
  | some r1 =>
      rw [hd] at h
      have h1 : r1.length + 10 = l.length := dropLit_length hd
      have h2 : r.length < r1.length := matchAfterMarker_length h
      omega

theorem scanToolCallsFuel_nil (f : Nat) : scanToolCallsFuel f [] = [] := by
  cases f <;> rfl

/-- The fuel argument of `scanToolCallsFuel` is irrelevant once it covers
the input length. -/
theorem scanToolCallsFuel_congr :
    ∀ (f1 f2 : Nat) (l : Str), l.length ≤ f1 → l.length ≤ f2 →
      scanToolCallsFuel f1 l = scanToolCallsFuel f2 l := by
  intro f1
  induction f1 using Nat.strong_induction_on with
  | _ f1 ih =>
      intro f2 l h1 h2
      match f1, f2, l with
      | f1, f2, [] => rw [scanToolCallsFuel_nil, scanToolCallsFuel_nil]
      | 0, _, c :: rest => simp at h1
      | _ + 1, 0, c :: rest => simp at h2
      | g1 + 1, g2 + 1, c :: rest =>
          rw [scanToolCallsFuel, scanToolCallsFuel]
          simp only [List.length_cons] at h1 h2
          cases hm : matchToolCallAt (c :: rest) with
          | some mr =>
              obtain ⟨m, r⟩ := mr
              have hlt := matchToolCallAt_length hm
              simp only [List.length_cons] at hlt
              simp only
              rw [ih g1 (by omega) g2 r (by omega) (by omega)]
          | none =>
              simp only
              exact ih g1 (by omega) g2 rest (by omega) (by omega)

/-- C2: when the first-pass LLM response parses to no tool calls,
`process_message` returns the initial response text unchanged with a null
tool-result component and an empty log, and sends exactly one outbound
message sequence to the LLM. -/
theorem processMessage_noToolCalls
    (llm : List Message → Except Str Str) (tools : Registry) (clock : Nat → Nat)
    (systemPrompt userMessage : Str) (history : List Message) (r : Str)
    (h1 : llm (mkMessages1 systemPrompt history userMessage) = .ok r)
    (h2 : parse_tool_calls r = .ok []) :
    process_message llm tools clock systemPrompt userMessage history =
      { result := .ok (r, none, []),
        llmCalls := [mkMessages1 systemPrompt history userMessage],
        turnLog := [] } := by
  simp only [process_message, h1, h2]

/-- Witness for `processMessage_noToolCalls` at a concrete conversational
input: one LLM call answering a greeting with no tool-call text. -/
theorem processMessage_noToolCalls_witness :
    process_message (fun _ => .ok "Hello! How can I help?".toList) [] (fun _ => 0)
        "SYS".toList "Hello!".toList [] =
      { result := .ok ("Hello! How can I help?".toList, none, []),
        llmCalls := [mkMessages1 "SYS".toList [] "Hello!".toList],
        turnLog := [] } :=
  processMessage_noToolCalls (fun _ => .ok "Hello! How can I help?".toList)
    [] (fun _ => 0) "SYS".toList "Hello!".toList []
    "Hello! How can I help?".toList rfl (by decide)

/-- C9: an LLM call raising propagates the exception unchanged out of
`process_message` — in both positions: when the first call raises, only one
outbound sequence was sent, no tool ran and no log entry was created; when
the second call raises (after a successful dispatch), the same exception
value propagates, the two outbound sequences having been sent and the
dispatch log entries having been created but lost with the raise. -/
theorem processMessage_llmError
    (llm : List Message → Except Str Str) (tools : Registry) (clock : Nat → Nat)
    (systemPrompt userMessage : Str) (history : List Message) :
    (∀ e : Str, llm (mkMessages1 systemPrompt history userMessage) = .error e →
      process_message llm tools clock systemPrompt userMessage history =
        { result := .error (.llm e),
          llmCalls := [mkMessages1 systemPrompt history userMessage],
          turnLog := [] }) ∧
    (∀ (r : Str) (tc : ToolCall) (tcs : List ToolCall)
        (toolResults : Str) (logs : List LogEntry) (e : Str),
      llm (mkMessages1 systemPrompt history userMessage) = .ok r →
      parse_tool_calls r = .ok (tc :: tcs) →
      execute_tool_calls tools clock (tc :: tcs) = .ok (toolResults, logs) →
      llm (mkMessages2 (mkMessages1 systemPrompt history userMessage) r
        toolResults) = .error e →
      process_message llm tools clock systemPrompt userMessage history =
        { result := .error (.llm e),
          llmCalls := [mkMessages1 systemPrompt history userMessage,
            mkMessages2 (mkMessages1 systemPrompt history userMessage) r
              toolResults],
          turnLog := logs }) := by
  constructor
  · intro e h1
    simp only [process_message, h1]
  · intro r tc tcs toolResults logs e h1 h2 hexec h3
    simp only [process_message, h1, h2, hexec, h3]

/-- Witness for `processMessage_llmError`: an always-raising provider for
the first conjunct, and a provider that requests a tool on the first pass
and raises on the second for the second conjunct. -/
theorem processMessage_llmError_witness :
    process_message (fun _ => .error "boom".toList) [] (fun _ => 0)
        "SYS".toList "Hi".toList [] =
      { result := .error (.llm "boom".toList),
        llmCalls := [mkMessages1 "SYS".toList [] "Hi".toList],
        turnLog := [] } ∧
    process_message
        (fun ms => if ms.length ≤ 2 then .ok "TOOL_CALL: g()".toList
          else .error "boom2".toList)
        [] (fun _ => 0) "SYS".toList "Q".toList [] =
      { result := .error (.llm "boom2".toList),
        llmCalls := [mkMessages1 "SYS".toList [] "Q".toList,
          mkMessages2 (mkMessages1 "SYS".toList [] "Q".toList)
            "TOOL_CALL: g()".toList
            ("**Tool: g**\n\nError: Tool 'g' not found. Available tools: ".toList)],
        turnLog := [{ tool := "g".toList, params := [], timestamp := 0 }] } := by
  constructor
  · exact (processMessage_llmError (fun _ => .error "boom".toList) []
      (fun _ => 0) "SYS".toList "Hi".toList []).1 "boom".toList rfl
  · exact (processMessage_llmError
      (fun ms => if ms.length ≤ 2 then .ok "TOOL_CALL: g()".toList
        else .error "boom2".toList)
      [] (fun _ => 0) "SYS".toList "Q".toList []).2
      "TOOL_CALL: g()".toList
      { tool_name := "g".toList, parameters := [] } []
      "**Tool: g**\n\nError: Tool 'g' not found. Available tools: ".toList
      [{ tool := "g".toList, params := [], timestamp := 0 }]
      "boom2".toList (by decide) (by decide) (by decide) (by decide)

/-- C3 (amended): when the first-pass LLM response contains at least one
tool call and the dispatch succeeds — that is, no parsed argument is named
`tool_name` or `self`, which would make line 182's binding raise `TypeError`
after only one LLM call — `process_message` sends exactly two outbound
sequences; the second equals the first plus an assistant message carrying
the initial response plus a user message wrapping the combined tool text in
the fixed instruction template; the returned triple is the second LLM
response verbatim (the hypothesis `h3` places no condition on
`finalResponse` — in particular it may itself contain `TOOL_CALL:` text,
which is never re-parsed), the non-null combined tool text, and the
dispatcher's log. -/
theorem processMessage_withToolCalls
    (llm : List Message → Except Str Str) (tools : Registry) (clock : Nat → Nat)
    (systemPrompt userMessage : Str) (history : List Message)
    (r finalResponse : Str) (tc : ToolCall) (tcs : List ToolCall)
    (toolResults : Str) (logs : List LogEntry)
    (h1 : llm (mkMessages1 systemPrompt history userMessage) = .ok r)
    (h2 : parse_tool_calls r = .ok (tc :: tcs))
    (hexec : execute_tool_calls tools clock (tc :: tcs) = .ok (toolResults, logs))
    (h3 : llm (mkMessages2 (mkMessages1 systemPrompt history userMessage) r
        toolResults) = .ok finalResponse) :
    process_message llm tools clock systemPrompt userMessage history =
      { result := .ok (finalResponse, some toolResults, logs),
        llmCalls := [mkMessages1 systemPrompt history userMessage,
          mkMessages2 (mkMessages1 systemPrompt history userMessage) r
            toolResults],
        turnLog := logs } ∧
    mkMessages2 (mkMessages1 systemPrompt history userMessage) r toolResults =
      mkMessages1 systemPrompt history userMessage ++
        [{ role := "assistant".toList, content := r },
         { role := "user".toList,
           content := toolResultsTemplate toolResults }] := by
  constructor
  · simp only [process_message, h1, h2, hexec, h3]
  · rfl

/-- Counterexample to C3 as stated: a first-pass response containing the
well-formed tool call `TOOL_CALL: f(self=1)` makes line 182's binding raise
`TypeError` out of `process_message` after exactly one LLM invocation —
no second outbound sequence, no returned triple. -/
theorem processMessage_withToolCalls_counterexample :
    process_message (fun _ => .ok "TOOL_CALL: f(self=1)".toList) [] (fun _ => 0)
        "SYS".toList "Q".toList [] =
      { result := .error (.py (.typeError "self".toList)),
        llmCalls := [mkMessages1 "SYS".toList [] "Q".toList],
        turnLog := [{ tool := "f".toList,
                      params := [("self".toList, PyVal.int 1)],
                      timestamp := 0 }] } := by
  rfl

/-- Witness for `processMessage_withToolCalls`: a provider that answers the
first outbound sequence (length 2) with one tool call and any longer
sequence with a final answer that even contains `TOOL_CALL:` text — which is
returned verbatim, exhibiting that the second response is not re-parsed. -/
theorem processMessage_withToolCalls_witness :
    process_message
        (fun ms => if ms.length ≤ 2 then .ok "TOOL_CALL: get_data()".toList
          else .ok "done TOOL_CALL: again()".toList)
        [] (fun _ => 0) "SYS".toList "Q".toList [] =
      { result := .ok ("done TOOL_CALL: again()".toList,
            some ("**Tool: get_data**\n\nError: Tool 'get_data' not found. Available tools: ".toList),
            [{ tool := "get_data".toList, params := [], timestamp := 0 }]),
        llmCalls := [mkMessages1 "SYS".toList [] "Q".toList,
          mkMessages2 (mkMessages1 "SYS".toList [] "Q".toList)
            "TOOL_CALL: get_data()".toList
            ("**Tool: get_data**\n\nError: Tool 'get_data' not found. Available tools: ".toList)],
        turnLog := [{ tool := "get_data".toList, params := [],
                      timestamp := 0 }] } ∧
    mkMessages2 (mkMessages1 "SYS".toList [] "Q".toList)
        "TOOL_CALL: get_data()".toList
        ("**Tool: get_data**\n\nError: Tool 'get_data' not found. Available tools: ".toList) =
      mkMessages1 "SYS".toList [] "Q".toList ++
        [{ role := "assistant".toList,
           content := "TOOL_CALL: get_data()".toList },
         { role := "user".toList,
           content := toolResultsTemplate
             ("**Tool: get_data**\n\nError: Tool 'get_data' not found. Available tools: ".toList) }] :=
  processMessage_withToolCalls
    (fun ms => if ms.length ≤ 2 then .ok "TOOL_CALL: get_data()".toList
      else .ok "done TOOL_CALL: again()".toList)
    [] (fun _ => 0) "SYS".toList "Q".toList []
    "TOOL_CALL: get_data()".toList "done TOOL_CALL: again()".toList
    { tool_name := "get_data".toList, parameters := [] } []
    ("**Tool: get_data**\n\nError: Tool 'get_data' not found. Available tools: ".toList)
    [{ tool := "get_data".toList, params := [], timestamp := 0 }]
    (by decide) (by decide) (by decide) (by decide)

theorem joinSep_mem_infix (sep : Str) {x : Str} {l : List Str} (hx : x ∈ l) :
    x <:+: joinSep sep l := by
  induction l with
  | nil => cases hx
  | cons a rest ih =>
      cases rest with
      | nil =>
          simp at hx
          subst hx
          exact List.infix_refl x
      | cons b rest2 =>
          rcases List.mem_cons.mp hx with h | h
          · subst h
            exact ⟨[], sep ++ joinSep sep (b :: rest2), by simp [joinSep]⟩
          · obtain ⟨s, t, hst⟩ := ih h
            exact ⟨a ++ sep ++ s, t, by simp [joinSep, ← hst]⟩

/-- C5: `execute_tool` is total (dispatch failures become text, never
exceptions): an unknown name yields text that contains the unknown name
itself and every registered tool name; a registered callable that raises
with message `msg` yields text containing the tool name and `msg`. -/
theorem executeTool_errors_are_text (tools : Registry) (name : Str)
    (args : ParamDict) :
    (lookupTool name tools = none →
      name <:+: execute_tool tools name args ∧
      ∀ k ∈ tools.map Prod.fst, k <:+: execute_tool tools name args) ∧
    (∀ spec msg, lookupTool name tools = some spec →
      spec.fn args = .error msg →
      name <:+: execute_tool tools name args ∧
      msg <:+: execute_tool tools name args) := by
  constructor
  · intro hnone
    constructor
    · exact ⟨"Error: Tool '".toList,
        "' not found. Available tools: ".toList ++
          joinSep ", ".toList (tools.map Prod.fst),
        by simp [execute_tool, hnone]⟩
    · intro k hk
      obtain ⟨s, t, hst⟩ := joinSep_mem_infix ", ".toList hk
      refine ⟨"Error: Tool '".toList ++ name ++
          "' not found. Available tools: ".toList ++ s, t, ?_⟩
      have hst' : s ++ (k ++ t) =
          joinSep ", ".toList (List.map Prod.fst tools) := by
        rw [← List.append_assoc]
        exact hst
      simp only [execute_tool, hnone, List.append_assoc, hst']
  · intro spec msg hsome herr
    constructor
    · exact ⟨"Error executing ".toList, ": ".toList ++ msg,
        by simp [execute_tool, hsome, herr]⟩
    · exact ⟨"Error executing ".toList ++ name ++ ": ".toList, [],
        by simp [execute_tool, hsome, herr]⟩

/-- Witness for `executeTool_errors_are_text`: a one-tool registry whose
callable raises, probed with an unknown name and with the raising tool. -/
theorem executeTool_errors_are_text_witness :
    (("nope".toList <:+: execute_tool
        [("crash".toList,
          { fn := fun _ => .error "kaput".toList,
            description := "d".toList, parameters := [] })]
        "nope".toList []) ∧
      ("crash".toList <:+: execute_tool
        [("crash".toList,
          { fn := fun _ => .error "kaput".toList,
            description := "d".toList, parameters := [] })]
        "nope".toList [])) ∧
    (("crash".toList <:+: execute_tool
        [("crash".toList,
          { fn := fun _ => .error "kaput".toList,
            description := "d".toList, parameters := [] })]
        "crash".toList []) ∧
      ("kaput".toList <:+: execute_tool
        [("crash".toList,
          { fn := fun _ => .error "kaput".toList,
            description := "d".toList, parameters := [] })]
        "crash".toList [])) := by
  constructor
  · have h := (executeTool_errors_are_text
      [("crash".toList,
        { fn := fun _ => .error "kaput".toList,
          description := "d".toList, parameters := [] })]
      "nope".toList []).1 rfl
    exact ⟨h.1, h.2 "crash".toList (by decide)⟩
  · exact (executeTool_errors_are_text
      [("crash".toList,
        { fn := fun _ => .error "kaput".toList,
          description := "d".toList, parameters := [] })]
      "crash".toList []).2
      { fn := fun _ => .error "kaput".toList,
        description := "d".toList, parameters := [] }
      "kaput".toList rfl rfl

theorem executeToolCallsGo_clean_fst (tools : Registry) (clock : Nat → Nat) :
    ∀ (tcs : List ToolCall) (i : Nat),
      (∀ tc ∈ tcs, callBindingError tc.parameters = none) →
      (executeToolCallsGo tools clock i tcs).1 =
        .ok (tcs.map (fun tc =>
          "**Tool: ".toList ++ tc.tool_name ++ "**\n\n".toList ++
            execute_tool tools tc.tool_name tc.parameters)) := by
  intro tcs
  induction tcs with
  | nil => intro i _; rfl
  | cons tc rest ih =>
      intro i hclean
      simp only [executeToolCallsGo, hclean tc (by simp), List.map_cons]
      rw [ih (i + 1) (fun x hx => hclean x (by simp [hx]))]

theorem executeToolCallsGo_clean_snd (tools : Registry) (clock : Nat → Nat) :
    ∀ (tcs : List ToolCall) (i j : Nat),
      (∀ tc ∈ tcs, callBindingError tc.parameters = none) →
      (executeToolCallsGo tools clock i tcs).2[j]? =
        tcs[j]?.map (fun tc =>
          { tool := tc.tool_name, params := tc.parameters,
            timestamp := clock (i + j) : LogEntry }) := by
  intro tcs
  induction tcs with
  | nil => intro i j _; simp [executeToolCallsGo]
  | cons tc rest ih =>
      intro i j hclean
      cases j with
      | zero => simp [executeToolCallsGo, hclean tc (by simp)]
      | succ j' =>
          simp only [executeToolCallsGo, hclean tc (by simp),
            List.getElem?_cons_succ]
          rw [ih (i + 1) j' (fun x hx => hclean x (by simp [hx]))]
          have : i + 1 + j' = i + (j' + 1) := by omega
          rw [this]

theorem executeToolCallsGo_clean_snd_length (tools : Registry)
    (clock : Nat → Nat) :
    ∀ (tcs : List ToolCall) (i : Nat),
      (∀ tc ∈ tcs, callBindingError tc.parameters = none) →
      (executeToolCallsGo tools clock i tcs).2.length = tcs.length := by
  intro tcs
  induction tcs with
  | nil => intro i _; rfl
  | cons tc rest ih =>
      intro i hclean
      simp only [executeToolCallsGo, hclean tc (by simp), List.length_cons]
      rw [ih (i + 1) (fun x hx => hclean x (by simp [hx]))]

/-- C6 (amended): on `n` invocations none of whose argument mappings rebind
`tool_name` or `self` — the amendment the code forces, since such an
invocation makes line 182's binding raise `TypeError` instead of returning —
`execute_tool_calls` returns exactly `n` log entries, in input order, the
`j`-th capturing the `j`-th invocation's tool name and arguments and the
time of the `j`-th clock reading, independently of whether the `j`-th
callable raised (the entry is appended before the tool executes); the
combined text joins the per-tool texts, each under a `**Tool: name**`
heading, with the blank-line-padded `---` rule; and when the clock is
monotone the log timestamps are non-decreasing. -/
theorem executeToolCalls_log_spec (tools : Registry) (clock : Nat → Nat)
    (tcs : List ToolCall)
    (hclean : ∀ tc ∈ tcs, callBindingError tc.parameters = none) :
    execute_tool_calls tools clock tcs =
      .ok (joinSep "\n\n---\n\n".toList
          (tcs.map (fun tc =>
            "**Tool: ".toList ++ tc.tool_name ++ "**\n\n".toList ++
              execute_tool tools tc.tool_name tc.parameters)),
        executeToolCallsTrace tools clock tcs) ∧
    (executeToolCallsTrace tools clock tcs).length = tcs.length ∧
    (∀ j : Nat, (executeToolCallsTrace tools clock tcs)[j]? =
        tcs[j]?.map (fun tc =>
          { tool := tc.tool_name, params := tc.parameters,
            timestamp := clock j : LogEntry })) ∧
    (Monotone clock → ∀ j k : Nat, j ≤ k → ∀ ej ek : LogEntry,
      (executeToolCallsTrace tools clock tcs)[j]? = some ej →
      (executeToolCallsTrace tools clock tcs)[k]? = some ek →
      ej.timestamp ≤ ek.timestamp) := by
  refine ⟨?_, ?_, ?_, ?_⟩
  · rw [execute_tool_calls, executeToolCallsGo_clean_fst tools clock tcs 0 hclean]
    rfl
  · exact executeToolCallsGo_clean_snd_length tools clock tcs 0 hclean
  · intro j
    have h := executeToolCallsGo_clean_snd tools clock tcs 0 j hclean
    simpa [executeToolCallsTrace] using h
  · intro hmono j k hjk ej ek hej hek
    have hj := executeToolCallsGo_clean_snd tools clock tcs 0 j hclean
    have hk := executeToolCallsGo_clean_snd tools clock tcs 0 k hclean
    simp only [executeToolCallsTrace] at hej hek
    rw [hej] at hj
    rw [hek] at hk
    cases htj : tcs[j]? with
    | none => rw [htj] at hj; cases hj
    | some tcj =>
        cases htk : tcs[k]? with
        | none => rw [htk] at hk; cases hk
        | some tck =>
            rw [htj] at hj
            rw [htk] at hk
            simp only [Option.map_some', Option.some.injEq] at hj hk
            rw [hj, hk]
            exact hmono (by omega : 0 + j ≤ 0 + k)

/-- Counterexample to C6 as stated: one invocation whose argument mapping
rebinds `tool_name`, on which `execute_tool_calls` raises `TypeError` and
returns neither a combined text nor any log entries. -/
theorem executeToolCalls_log_spec_counterexample :
    execute_tool_calls [] (fun _ => 0)
        [{ tool_name := "f".toList,
           parameters := [("tool_name".toList, PyVal.int 1)] }] =
      .error (.typeError "tool_name".toList) := by
  rfl

/-- Witness for `executeToolCalls_log_spec`: two clean invocations against
the empty registry with the identity clock. -/
theorem executeToolCalls_log_spec_witness :
    (executeToolCallsTrace [] (fun n => n)
        [{ tool_name := "a".toList, parameters := [] },
         { tool_name := "b".toList, parameters := [] }]).length = 2 ∧
    (∀ ej ek : LogEntry,
      (executeToolCallsTrace [] (fun n => n)
        [{ tool_name := "a".toList, parameters := [] },
         { tool_name := "b".toList, parameters := [] }])[0]? = some ej →
      (executeToolCallsTrace [] (fun n => n)
        [{ tool_name := "a".toList, parameters := [] },
         { tool_name := "b".toList, parameters := [] }])[1]? = some ek →
      ej.timestamp ≤ ek.timestamp) := by
  have h := executeToolCalls_log_spec [] (fun n => n)
    [{ tool_name := "a".toList, parameters := [] },
     { tool_name := "b".toList, parameters := [] }] (by decide)
  exact ⟨h.2.1, fun ej ek hej hek =>
    h.2.2.2 (fun a b hab => hab) 0 1 (by omega) ej ek hej hek⟩

/-- C8: `get_tools_description` renders exactly as the spec describes, for
every registry; and the concrete registry of `_register_tools` lists its
eight tools in source insertion order.  Determinism across calls is inherent
(the rendering is a pure function of the registry). -/
theorem getToolsDescription_spec (da : DataAnalyzer) :
    (∀ tools : Registry, get_tools_description tools = specToolsDescription tools) ∧
    (register_tools da).map Prod.fst =
      ["get_dataset_summary".toList, "get_statistical_summary".toList,
       "analyze_delays".toList, "analyze_route_performance".toList,
       "analyze_warehouse_performance".toList, "analyze_by_time_period".toList,
       "get_recommendations".toList, "search_shipments".toList] := by
  constructor
  · intro tools
    unfold get_tools_description specToolsDescription
    congr 1
    apply List.map_congr_left
    intro nt _
    unfold specToolBlock
    by_cases hp : nt.2.parameters.isEmpty
    · simp [hp]
    · simp [hp, List.append_assoc]
  · rfl

theorem dictInsert_cons_pos (k : Str) (v : PyVal) (e : Str × PyVal)
    (rest : ParamDict) (h : e.1 = k) :
    dictInsert k v (e :: rest) = (k, v) :: rest := by
  rw [dictInsert, if_pos h]

theorem dictInsert_cons_neg (k : Str) (v : PyVal) (e : Str × PyVal)
    (rest : ParamDict) (h : ¬ e.1 = k) :
    dictInsert k v (e :: rest) = e :: dictInsert k v rest := by
  rw [dictInsert, if_neg h]

theorem dictGet_dictInsert_self (k : Str) (v : PyVal) (d : ParamDict) :
    dictGet k (dictInsert k v d) = some v := by
  induction d with
  | nil => simp [dictInsert, dictGet]
  | cons e rest ih =>
      obtain ⟨k', v'⟩ := e
      by_cases h : k' = k
      · simp [dictInsert, h, dictGet]
      · simp [dictInsert, h, dictGet, ih]

theorem dictGet_dictInsert_ne (k : Str) (v : PyVal) (d : ParamDict)
    (q : Str) (h : q ≠ k) : dictGet q (dictInsert k v d) = dictGet q d := by
  induction d with
  | nil =>
      simp [dictInsert, dictGet]
      intro he
      exact absurd he.symm h
  | cons e rest ih =>
      obtain ⟨k', v'⟩ := e
      by_cases hk : k' = k
      · subst hk
        simp only [dictInsert, if_pos rfl, dictGet]
        rw [if_neg (fun he => h he.symm), if_neg (fun he => h he.symm)]
      · simp only [dictInsert, if_neg hk, dictGet]
        by_cases hq : k' = q
        · simp [hq]
        · simp [hq, ih]

theorem dictInsert_keys_mem {x k : Str} {v : PyVal} {d : ParamDict}
    (h : x ∈ (dictInsert k v d).map Prod.fst) :
    x ∈ d.map Prod.fst ∨ x = k := by
  induction d with
  | nil =>
      right
      simpa [dictInsert] using h
  | cons e rest ih =>
      obtain ⟨k', v'⟩ := e
      by_cases hk : k' = k
      · subst hk
        rw [dictInsert_cons_pos k' v (k', v') rest rfl] at h
        simp only [List.map_cons, List.mem_cons] at h
        rcases h with h | h
        · right; exact h
        · left
          simp only [List.map_cons, List.mem_cons]
          right
          exact h
      · simp only [dictInsert, if_neg hk, List.map_cons, List.mem_cons] at h ⊢
        rcases h with h | h
        · left; left; exact h
        · rcases ih h with h2 | h2
          · left; right; exact h2
          · right; exact h2

theorem dictInsert_keys_nodup {k : Str} {v : PyVal} {d : ParamDict}
    (h : (d.map Prod.fst).Nodup) :
    ((dictInsert k v d).map Prod.fst).Nodup := by
  induction d with
  | nil => simp [dictInsert]
  | cons e rest ih =>
      obtain ⟨k', v'⟩ := e
      simp only [List.map_cons, List.nodup_cons] at h
      by_cases hk : k' = k
      · subst hk
        rw [dictInsert_cons_pos k' v (k', v') rest rfl]
        simp only [List.map_cons, List.nodup_cons]
        exact h
      · rw [dictInsert_cons_neg k v (k', v') rest hk]
        simp only [List.map_cons, List.nodup_cons]
        refine ⟨?_, ih h.2⟩
        intro hmem
        rcases dictInsert_keys_mem hmem with h2 | h2
        · exact h.1 h2
        · exact hk h2

theorem buildDict_lastRaw :
    ∀ (pairs : List (Str × Str)) (d d' : ParamDict),
      buildDict pairs d = .ok d' → ∀ k : Str,
      (∀ raw, lastRawFor k pairs = some raw →
        ∃ v, coerceParamValue raw = .ok v ∧ dictGet k d' = some v) ∧
      (lastRawFor k pairs = none → dictGet k d' = dictGet k d) := by
  intro pairs
  induction pairs with
  | nil =>
      intro d d' h k
      simp only [buildDict, Except.ok.injEq] at h
      subst h
      exact ⟨fun raw hr => by simp [lastRawFor] at hr, fun _ => rfl⟩
  | cons e rest ih =>
      obtain ⟨k0, raw0⟩ := e
      intro d d' h k
      simp only [buildDict] at h
      cases hc : coerceParamValue raw0 with
      | error e0 => rw [hc] at h; cases h
      | ok v0 =>
          rw [hc] at h
          simp only at h
          have IH := ih (dictInsert k0 v0 d) d' h k
          constructor
          · intro raw hr
            simp only [lastRawFor] at hr
            cases hl : lastRawFor k rest with
            | some r =>
                rw [hl] at hr
                simp only [Option.some.injEq] at hr
                subst hr
                exact IH.1 r hl
            | none =>
                rw [hl] at hr
                by_cases hk0 : k0 = k
                · simp only [if_pos hk0, Option.some.injEq] at hr
                  subst hr
                  refine ⟨v0, hc, ?_⟩
                  rw [IH.2 hl, ← hk0, dictGet_dictInsert_self]
                · simp [if_neg hk0] at hr
          · intro hnone
            simp only [lastRawFor] at hnone
            cases hl : lastRawFor k rest with
            | some r => rw [hl] at hnone; cases hnone
            | none =>
                rw [hl] at hnone
                by_cases hk0 : k0 = k
                · simp [if_pos hk0] at hnone
                · rw [IH.2 hl]
                  exact dictGet_dictInsert_ne k0 v0 d k (fun he => hk0 he.symm)

theorem buildDict_nodup :
    ∀ (pairs : List (Str × Str)) (d d' : ParamDict),
      buildDict pairs d = .ok d' → (d.map Prod.fst).Nodup →
      (d'.map Prod.fst).Nodup := by
  intro pairs
  induction pairs with
  | nil =>
      intro d d' h hn
      simp only [buildDict, Except.ok.injEq] at h
      subst h
      exact hn
  | cons e rest ih =>
      obtain ⟨k0, raw0⟩ := e
      intro d d' h hn
      simp only [buildDict] at h
      cases hc : coerceParamValue raw0 with
      | error e0 => rw [hc] at h; cases h
      | ok v0 =>
          rw [hc] at h
          simp only at h
          exact ih (dictInsert k0 v0 d) d' h (dictInsert_keys_nodup hn)

theorem pyStrip_isEmpty_all {p : Char → Bool} {l : Str}
    (h : (pyStrip p l).isEmpty) : ∀ c ∈ l, p c = true := by
  intro c hc
  have h0 : pyStrip p l = [] := by
    cases he : pyStrip p l with
    | nil => rfl
    | cons a b => rw [he] at h; simp [List.isEmpty] at h
  unfold pyStrip at h0
  have h1 : (l.dropWhile p).reverse.dropWhile p = [] := by
    have := congrArg List.reverse h0
    simpa using this
  have h2 : ∀ x ∈ (l.dropWhile p).reverse, p x :=
    fun x hx => List.dropWhile_eq_nil_iff.mp h1 x hx
  have h3 : ∀ x ∈ l.dropWhile p, p x := by
    intro x hx
    exact h2 x (List.mem_reverse.mpr hx)
  have h4 : l.takeWhile p ++ l.dropWhile p = l :=
    List.takeWhile_append_dropWhile p l
  rcases List.mem_append.mp (by rw [h4]; exact hc) with hm | hm
  · exact List.mem_takeWhile_imp hm
  · exact h3 c hm

theorem isSpaceChar_not_word {c : Char} (h : isSpaceChar c = true) :
    isWordChar c = false := by
  have : c = ' ' ∨ c = '\t' ∨ c = '\n' ∨ c = '\r' ∨
      c = Char.ofNat 11 ∨ c = Char.ofNat 12 := by
    simpa [isSpaceChar, or_assoc] using h
  rcases this with rfl | rfl | rfl | rfl | rfl | rfl <;> decide

theorem matchParamAt_nonword {c : Char} {rest : Str}
    (h : isWordChar c = false) : matchParamAt (c :: rest) = none := by
  have htw : takeWord (c :: rest) = ([], c :: rest) := by
    rw [takeWord, if_neg (by simp [h])]
  rw [matchParamAt, htw]
  rfl

theorem scanParamsFuel_all_space :
    ∀ (fuel : Nat) (l : Str), (∀ c ∈ l, isSpaceChar c = true) →
      scanParamsFuel fuel l = [] := by
  intro fuel
  induction fuel with
  | zero => intro l _; rfl
  | succ f ih =>
      intro l hl
      cases l with
      | nil => rfl
      | cons c rest =>
          rw [scanParamsFuel,
            matchParamAt_nonword (isSpaceChar_not_word (hl c (by simp)))]
          exact ih rest (fun x hx => hl x (by simp [hx]))

/-- C10: within one tool call, a repeated argument key yields exactly one
entry in the parsed mapping (keys are duplicate-free), holding the coerced
value of the last (rightmost) occurrence of the key among the scanned
`key=value` fragments; concretely, `TOOL_CALL: f(a=1, a=2)` parses to the
single binding `a = 2`. -/
theorem parseParams_duplicateKey_lastWins :
    (∀ (ps : Str) (d : ParamDict), parseParamsStr ps = .ok d →
      (d.map Prod.fst).Nodup ∧
      (∀ k raw, lastRawFor k (scanParams ps) = some raw →
        ∃ v, coerceParamValue raw = .ok v ∧ dictGet k d = some v)) ∧
    parse_tool_calls "TOOL_CALL: f(a=1, a=2)".toList =
      .ok [{ tool_name := "f".toList,
             parameters := [("a".toList, PyVal.int 2)] }] := by
  constructor
  · intro ps d h
    unfold parseParamsStr at h
    by_cases hs : (pyStrip isSpaceChar ps).isEmpty
    · rw [if_pos hs] at h
      have hd : d = [] := by
        cases h
        rfl
      have hscan : scanParams ps = [] :=
        scanParamsFuel_all_space ps.length ps (pyStrip_isEmpty_all hs)
      subst hd
      refine ⟨by simp, ?_⟩
      intro k raw hr
      rw [hscan] at hr
      cases hr
    · rw [if_neg hs] at h
      refine ⟨buildDict_nodup (scanParams ps) [] d h (by simp), ?_⟩
      intro k raw hr
      exact (buildDict_lastRaw (scanParams ps) [] d h k).1 raw hr
  · rfl

/-- Witness for `parseParams_duplicateKey_lastWins` at the body of
`TOOL_CALL: f(a=1, a=2)`. -/
theorem parseParams_duplicateKey_lastWins_witness :
    ((("a=1, a=2".toList : Str) |> parseParamsStr) =
        .ok [("a".toList, PyVal.int 2)]) ∧
    (([("a".toList, PyVal.int 2)].map (Prod.fst)).Nodup ∧
      ∃ v, coerceParamValue "2".toList = .ok v ∧
        dictGet "a".toList [("a".toList, PyVal.int 2)] = some v) := by
  refine ⟨by decide, ?_⟩
  have h := (parseParams_duplicateKey_lastWins).1 "a=1, a=2".toList
    [("a".toList, PyVal.int 2)] (by decide)
  exact ⟨h.1, h.2 "a".toList "2".toList (by decide)⟩

/-- C4 (amended): after stripping surrounding whitespace and quote
characters, a value case-insensitively equal to `none` becomes null; a
non-empty value consisting entirely of decimal digits becomes an integer; a
value that is not entirely digit-class characters stays a string with the
quotes stripped; but — the amendment the code forces — a non-empty value all
of whose characters are digit-class while not all decimal (e.g. `²`) makes
`int()` raise `ValueError` instead of staying a string.  The concrete
conjunct is the spec's example `year=2024, month="Oct"`. -/
theorem coerceParamValue_cases (raw : Str) :
    (pyLower (strippedValue raw) = "none".toList →
      coerceParamValue raw = .ok .null) ∧
    (pyLower (strippedValue raw) ≠ "none".toList →
      strippedValue raw ≠ [] →
      (strippedValue raw).all Char.isDigit = true →
      coerceParamValue raw = .ok (.int (decVal (strippedValue raw)))) ∧
    (pyLower (strippedValue raw) ≠ "none".toList →
      ¬(strippedValue raw ≠ [] ∧ (strippedValue raw).all pyIsDigit = true) →
      coerceParamValue raw = .ok (.str (strippedValue raw))) ∧
    (pyLower (strippedValue raw) ≠ "none".toList →
      strippedValue raw ≠ [] →
      (strippedValue raw).all pyIsDigit = true →
      (strippedValue raw).all Char.isDigit = false →
      coerceParamValue raw = .error (.valueError (strippedValue raw))) ∧
    parse_tool_calls
        "TOOL_CALL: analyze_by_time_period(year=2024, month=\"Oct\")".toList =
      .ok [{ tool_name := "analyze_by_time_period".toList,
             parameters := [("year".toList, PyVal.int 2024),
                            ("month".toList, PyVal.str "Oct".toList)] }] := by
  refine ⟨?_, ?_, ?_, ?_, by rfl⟩
  · intro h
    rw [coerceParamValue, if_pos h]
  · intro hn hne hd
    have hp : (strippedValue raw).all pyIsDigit = true := by
      rw [List.all_eq_true] at hd ⊢
      intro c hc
      simp [pyIsDigit, hd c hc]
    rw [coerceParamValue, if_neg hn, if_pos ⟨hne, hp⟩, if_pos hd]
  · intro hn hno
    rw [coerceParamValue, if_neg hn, if_neg hno]
  · intro hn hne hp hd
    rw [coerceParamValue, if_neg hn, if_pos ⟨hne, hp⟩, if_neg (by simp [hd])]

/-- Counterexample to C4 as stated: the value `²` is not made of decimal
digits, so by the claim it should stay a string; instead the parse raises
`ValueError` (Python `str.isdigit` accepts `²` but `int()` rejects it). -/
theorem coerceParamValue_cases_counterexample :
    parse_tool_calls "TOOL_CALL: f(a=\"²\")".toList =
      .error (.valueError "²".toList) := by
  rfl

/-- Witness for `coerceParamValue_cases` at the four branch inputs
`None`, `2024`, `Oct`, and `²`. -/
theorem coerceParamValue_cases_witness :
    coerceParamValue "None".toList = .ok .null ∧
    coerceParamValue "2024".toList = .ok (.int 2024) ∧
    coerceParamValue "Oct".toList = .ok (.str "Oct".toList) ∧
    coerceParamValue "²".toList = .error (.valueError "²".toList) := by
  refine ⟨?_, ?_, ?_, ?_⟩
  · exact (coerceParamValue_cases "None".toList).1 (by decide)
  · have h := (coerceParamValue_cases "2024".toList).2.1 (by decide) (by decide)
      (by decide)
    simpa using h
  · have h := (coerceParamValue_cases "Oct".toList).2.2.1 (by decide) (by decide)
    simpa using h
  · have h := (coerceParamValue_cases "²".toList).2.2.2.1 (by decide) (by decide)
      (by decide) (by decide)
    simpa using h

/-- C7: on input `TOOL_CALL: f(a=²)` the parser raises `ValueError` out of
`parse_tool_calls` (`'²'.isdigit()` is true, so the code calls `int('²')`,
which raises), contradicting the claim — and the spec's own edge-case
rule — that the parser never raises and always returns a list. -/
theorem parse_raises_on_superscript_digit :
    parse_tool_calls "TOOL_CALL: f(a=²)".toList =
      .error (.valueError "²".toList) := by
  rfl

theorem dropLit_self : ∀ (p l : Str), dropLit p (p ++ l) = some l := by
  intro p
  induction p with
  | nil => intro l; rfl
  | cons a ps ih =>
      intro l
      simp only [List.cons_append, dropLit, if_pos rfl]
      exact ih l

theorem dropLit_eq : ∀ {p l r : Str}, dropLit p l = some r → l = p ++ r := by
  intro p
  induction p with
  | nil =>
      intro l r h
      simp only [dropLit, Option.some.injEq] at h
      simpa using h
  | cons a ps ih =>
      intro l r h
      match l with
      | [] => cases h
      | c :: cs =>
          simp only [dropLit] at h
          by_cases hc : c = a
          · subst hc
            simp only [if_pos rfl] at h
            simpa using ih h
          · rw [if_neg hc] at h
            cases h

theorem isWordChar_not_space {c : Char} (h : isWordChar c = true) :
    isSpaceChar c = false := by
  cases hs : isSpaceChar c with
  | false => rfl
  | true => rw [isSpaceChar_not_word hs] at h; cases h

theorem dropSpaces_append {ws : Str} (l : Str)
    (h : ∀ c ∈ ws, isSpaceChar c = true) :
    dropSpaces (ws ++ l) = dropSpaces l := by
  induction ws with
  | nil => rfl
  | cons a ws' ih =>
      simp only [List.cons_append, dropSpaces, List.dropWhile]
      rw [h a (by simp)]
      exact ih (fun c hc => h c (by simp [hc]))

theorem dropSpaces_word_head {c : Char} (l : Str) (h : isWordChar c = true) :
    dropSpaces (c :: l) = c :: l := by
  simp only [dropSpaces, List.dropWhile]
  rw [isWordChar_not_space h]

theorem takeWord_word_append {name : Str} (l : Str)
    (hw : ∀ c ∈ name, isWordChar c = true)
    (hl : ∀ c r, l = c :: r → isWordChar c = false) :
    takeWord (name ++ l) = (name, l) := by
  induction name with
  | nil =>
      cases l with
      | nil => rfl
      | cons c r =>
          simp only [List.nil_append, takeWord]
          rw [hl c r rfl]
          simp
  | cons a name' ih =>
      simp only [List.cons_append, takeWord]
      rw [hw a (by simp)]
      simp only [if_true, List.append_eq]
      rw [ih (fun c hc => hw c (by simp [hc]))]

theorem splitAtCloseParen_no_paren {body : Str} (rest : Str)
    (h : ')' ∉ body) :
    splitAtCloseParen (body ++ ')' :: rest) = some (body, rest) := by
  induction body with
  | nil => simp [splitAtCloseParen]
  | cons a body' ih =>
      simp only [List.cons_append, splitAtCloseParen, List.append_eq]
      rw [if_neg (fun ha => h (by simp [ha]))]
      rw [ih (fun hb => h (by simp [hb]))]

theorem matchToolCallAt_marker (l : Str) :
    matchToolCallAt (toolMarker ++ l) = matchAfterMarker l := by
  rw [matchToolCallAt, dropLit_self]

theorem matchToolCallAt_callText {ws name body : Str} (rest : Str)
    (hws : ∀ c ∈ ws, isSpaceChar c = true) (hname : name ≠ [])
    (hword : ∀ c ∈ name, isWordChar c = true) (hbody : ')' ∉ body) :
    matchToolCallAt (callText ws name body ++ rest) = some ((name, body), rest) := by
  have hassoc : callText ws name body ++ rest =
      toolMarker ++ (ws ++ (name ++ ('(' :: (body ++ ')' :: rest)))) := by
    simp [callText, List.append_assoc]
  rw [hassoc, matchToolCallAt_marker]
  have hds : dropSpaces (ws ++ (name ++ ('(' :: (body ++ ')' :: rest)))) =
      name ++ ('(' :: (body ++ ')' :: rest)) := by
    rw [dropSpaces_append _ hws]
    match name, hname with
    | a :: name', _ =>
        simp only [List.cons_append]
        exact dropSpaces_word_head _ (hword a (by simp))
  have htw : takeWord (dropSpaces (ws ++ (name ++ ('(' :: (body ++ ')' :: rest))))) =
      (name, '(' :: (body ++ ')' :: rest)) := by
    rw [hds]
    exact takeWord_word_append _ hword
      (fun c r hc => by
        cases hc
        decide)
  rw [matchAfterMarker, htw]
  simp only
  rw [if_neg (by simpa using hname)]
  rw [splitAtCloseParen_no_paren rest hbody]

theorem matchToolCallAt_prefix {l : Str} {m : Str × Str} {r : Str}
    (h : matchToolCallAt l = some (m, r)) : toolMarker <+: l := by
  rw [matchToolCallAt] at h
  cases hd : dropLit toolMarker l with
  | none => rw [hd] at h; cases h
  | some r1 => exact ⟨r1, (dropLit_eq hd).symm⟩

theorem prefix_append_long {p s t : Str} (h : p <+: s ++ t)
    (hle : p.length ≤ s.length) : p <+: s := by
  obtain ⟨u, hu⟩ := h
  have h1 : (p ++ u).take p.length = p := List.take_left p u
  rw [hu, List.take_append_of_le_length hle] at h1
  rw [← h1]
  exact List.take_prefix p.length s

theorem prefix_append_split {p s t : Str} (h : p <+: s ++ t)
    (hle : s.length ≤ p.length) : s <+: p ∧ p.drop s.length <+: t := by
  obtain ⟨u, hu⟩ := h
  constructor
  · have h1 : (s ++ t).take s.length = s := List.take_left s t
    rw [← hu, List.take_append_of_le_length hle] at h1
    rw [← h1]
    exact List.take_prefix s.length p
  · have h2 : (s ++ t).drop s.length = t := List.drop_left s t
    rw [← hu, List.drop_append_of_le_length hle] at h2
    exact ⟨u, h2⟩

theorem dropMarker_not_prefix_marker :
    ∀ k : Nat, 1 ≤ k → k < 10 → ¬ (toolMarker.drop k <+: toolMarker) := by
  decide

theorem marker_no_straddle {p rest : Str} (hp : ¬ toolMarker <:+: p)
    (hr : rest = [] ∨ toolMarker <+: rest) :
    ∀ i, i < p.length → ¬ toolMarker <+: (p ++ rest).drop i := by
  intro i hi hpre
  rw [List.drop_append_of_le_length (le_of_lt hi)] at hpre
  have hslen : (p.drop i).length = p.length - i := List.length_drop i p
  by_cases hk : 10 ≤ (p.drop i).length
  · have h1 : toolMarker <+: p.drop i :=
      prefix_append_long hpre (by rw [show toolMarker.length = 10 from rfl]; omega)
    obtain ⟨w, hw⟩ := h1
    refine hp ⟨p.take i, w, ?_⟩
    rw [List.append_assoc, hw, List.take_append_drop]
  · rcases hr with hr | hr
    · subst hr
      have := hpre.length_le
      simp only [List.append_nil] at this
      rw [show toolMarker.length = 10 from rfl] at this
      omega
    · have hsp := prefix_append_split hpre
        (by rw [show toolMarker.length = 10 from rfl]; omega)
      have hshort : toolMarker.drop (p.drop i).length <+: toolMarker :=
        List.prefix_of_prefix_length_le hsp.2 hr
          (by
            have := List.length_drop (p.drop i).length toolMarker
            rw [show toolMarker.length = 10 from rfl] at this ⊢
            omega)
      exact dropMarker_not_prefix_marker (p.drop i).length (by omega) (by omega)
        hshort

theorem scanToolCallsFuel_skip :
    ∀ (fuel : Nat) (p rest : Str),
      p.length + rest.length ≤ fuel →
      (∀ i, i < p.length → ¬ toolMarker <+: (p ++ rest).drop i) →
      scanToolCallsFuel fuel (p ++ rest) = scanToolCalls rest := by
  intro fuel
  induction fuel with
  | zero =>
      intro p rest h hnm
      have hp : p = [] := by
        cases p with
        | nil => rfl
        | cons a b => simp at h
      have hrest : rest = [] := by
        cases rest with
        | nil => rfl
        | cons a b => subst hp; simp at h
      subst hp
      subst hrest
      rfl
  | succ f ih =>
      intro p rest h hnm
      cases p with
      | nil =>
          simp only [List.nil_append]
          exact scanToolCallsFuel_congr (f + 1) rest.length rest
            (by simpa using h) (le_refl _)
      | cons c p' =>
          have hnone : matchToolCallAt (c :: (p' ++ rest)) = none := by
            cases hmc : matchToolCallAt (c :: (p' ++ rest)) with
            | none => rfl
            | some mr =>
                obtain ⟨m, r⟩ := mr
                have hpre := matchToolCallAt_prefix hmc
                exact absurd (by simpa using hpre) (hnm 0 (by simp))
          rw [show (c :: p') ++ rest = c :: (p' ++ rest) from rfl,
            scanToolCallsFuel, hnone]
          refine ih p' rest (by simp at h; omega) ?_
          intro i hi
          have := hnm (i + 1) (by simp; omega)
          simpa using this

theorem scanToolCallsFuel_some {fuel : Nat} {l : Str} {m : Str × Str} {r : Str}
    (hl : l ≠ []) (h : matchToolCallAt l = some (m, r)) :
    scanToolCallsFuel (fuel + 1) l = m :: scanToolCallsFuel fuel r := by
  cases l with
  | nil => exact absurd rfl hl
  | cons c cs => rw [scanToolCallsFuel, h]

theorem callText_length (ws name body : Str) :
    (callText ws name body).length =
      ws.length + name.length + body.length + 12 := by
  simp [callText]
  have : toolMarker.length = 10 := rfl
  omega

theorem scanToolCalls_skip (p rest : Str) (hp : ¬ toolMarker <:+: p)
    (hr : rest = [] ∨ toolMarker <+: rest) :
    scanToolCalls (p ++ rest) = scanToolCalls rest := by
  show scanToolCallsFuel (p ++ rest).length (p ++ rest) = scanToolCalls rest
  exact scanToolCallsFuel_skip (p ++ rest).length p rest (by simp)
    (marker_no_straddle hp hr)

theorem scanToolCalls_emit {ws name body : Str} (rest : Str)
    (hws : ∀ c ∈ ws, isSpaceChar c = true) (hname : name ≠ [])
    (hword : ∀ c ∈ name, isWordChar c = true) (hbody : ')' ∉ body) :
    scanToolCalls (callText ws name body ++ rest) =
      (name, body) :: scanToolCalls rest := by
  show scanToolCallsFuel (callText ws name body ++ rest).length
      (callText ws name body ++ rest) = (name, body) :: scanToolCalls rest
  have hlen : (callText ws name body ++ rest).length =
      ws.length + name.length + body.length + 12 + rest.length := by
    simp [callText_length]
  obtain ⟨f, hf⟩ : ∃ f, (callText ws name body ++ rest).length = f + 1 :=
    ⟨(callText ws name body ++ rest).length - 1, by omega⟩
  rw [hf, scanToolCallsFuel_some (by
      intro hnil
      rw [hnil] at hlen
      have h0 : (0 : Nat) =
          ws.length + name.length + body.length + 12 + rest.length := by
        simpa using hlen
      omega)
    (matchToolCallAt_callText rest hws hname hword hbody)]
  have : scanToolCallsFuel f rest = scanToolCalls rest :=
    scanToolCallsFuel_congr f rest.length rest (by omega) (le_refl _)
  rw [this]

/-- C1 (amended): for every text assembled from well-formed `TOOL_CALL:`
occurrences embedded in arbitrary marker-free prose — provided every
occurrence's arguments coerce without raising — `parse_tool_calls` returns
exactly one invocation per occurrence, in left-to-right order, carrying that
occurrence's name and arguments; with no occurrence, the result is the empty
sequence. -/
theorem parse_extracts_each_occurrence :
    ∀ (chunks : List ProseCall) (tail : Str),
      (∀ c ∈ chunks, WellFormedChunk c) → ¬ toolMarker <:+: tail →
      parse_tool_calls (assembleText chunks tail) =
        .ok (chunks.map (fun c =>
          { tool_name := c.name, parameters := c.args })) := by
  intro chunks
  induction chunks with
  | nil =>
      intro tail _ htail
      show buildToolCalls (scanToolCalls (assembleText [] tail)) = .ok []
      have hscan : scanToolCalls tail = [] := by
        have h := scanToolCalls_skip tail [] htail (Or.inl rfl)
        simpa using h
      rw [assembleText, hscan]
      rfl
  | cons c rest ih =>
      intro tail hc htail
      obtain ⟨hws, hname, hword, hbody, hprose, hargs⟩ := hc c (by simp)
      show buildToolCalls (scanToolCalls (assembleText (c :: rest) tail)) = _
      rw [assembleText]
      rw [scanToolCalls_skip _ _ hprose
        (Or.inr ⟨(c.ws ++ c.name ++ '(' :: (c.body ++ [')'])) ++
            assembleText rest tail,
          by simp [callText, List.append_assoc]⟩)]
      rw [scanToolCalls_emit _ hws hname hword hbody]
      have IH := ih tail (fun x hx => hc x (by simp [hx])) htail
      show buildToolCalls ((c.name, c.body) :: scanToolCalls (assembleText rest tail)) = _
      rw [buildToolCalls, hargs]
      simp only
      rw [show buildToolCalls (scanToolCalls (assembleText rest tail)) =
          .ok (rest.map (fun x =>
            { tool_name := x.name, parameters := x.args })) from IH]
      simp

/-- Counterexample to C1 as stated: this text contains exactly one
well-formed occurrence of the pattern, yet `parse_tool_calls` returns no
invocation sequence at all — it raises `ValueError` while coercing the
argument value `³`. -/
theorem parse_extracts_each_occurrence_counterexample :
    parse_tool_calls "TOOL_CALL: g(x=³)".toList =
      .error (.valueError "³".toList) := by
  rfl

/-- Witness for `parse_extracts_each_occurrence`: the no-occurrence text of
the spec's example, and a two-occurrence text with surrounding prose. -/
theorem parse_extracts_each_occurrence_witness :
    parse_tool_calls "no tools mentioned".toList = .ok [] ∧
    parse_tool_calls ("Sure! TOOL_CALL: get_dataset_summary() and TOOL_CALL: analyze_route_performance(route=\"Route A\") done".toList) =
      .ok [{ tool_name := "get_dataset_summary".toList, parameters := [] },
           { tool_name := "analyze_route_performance".toList,
             parameters := [("route".toList, PyVal.str "Route A".toList)] }] := by
  constructor
  · exact parse_extracts_each_occurrence [] "no tools mentioned".toList
      (by simp) (by decide)
  · have h := parse_extracts_each_occurrence
      [{ prose := "Sure! ".toList, ws := " ".toList,
         name := "get_dataset_summary".toList, body := [], args := [] },
       { prose := " and ".toList, ws := " ".toList,
         name := "analyze_route_performance".toList,
         body := "route=\"Route A\"".toList,
         args := [("route".toList, PyVal.str "Route A".toList)] }]
      " done".toList (by decide) (by decide)
    have heq :
        "Sure! TOOL_CALL: get_dataset_summary() and TOOL_CALL: analyze_route_performance(route=\"Route A\") done".toList =
        assembleText
          [{ prose := "Sure! ".toList, ws := " ".toList,
             name := "get_dataset_summary".toList, body := [], args := [] },
           { prose := " and ".toList, ws := " ".toList,
             name := "analyze_route_performance".toList,
             body := "route=\"Route A\"".toList,
             args := [("route".toList, PyVal.str "Route A".toList)] }]
          " done".toList := by
      decide
    rw [heq]
    exact h
